import Mathlib

/-!
Verification of the `deminer` Minesweeper engine (`src/game/mod.rs`, `src/game/cell.rs`).

The Rust code is shallowly embedded below.  Machine integers are modelled as
`Nat`/`Int` with explicit `% 256` wrapping where the source performs `u8`/`i8`
arithmetic or casts (release-mode wrapping semantics; debug builds would panic
on the same overflows).  A Rust `panic!` (the out-of-bounds `HashMap` lookup in
`Game::cell`/`Game::cell_mut`) is modelled by the `Failure.panicked` outcome of
the bounds-checked wrappers, and by `Option.none` in the trace-level `step`/`run`
functions.
-/

namespace Deminer

/-- Mirrors the Rust enum `CellValue { Bomb, Empty, BombsAround(u8) }`. -/
inductive CellValue where
  | bomb : CellValue
  | empty : CellValue
  | bombsAround (n : Nat) : CellValue
  deriving DecidableEq

/-- Mirrors the Rust struct `Cell { shown, exploded, flagged : bool, value : CellValue }`. -/
structure Cell where
  shown : Bool
  exploded : Bool
  flagged : Bool
  value : CellValue
  deriving DecidableEq

/-- `Cell::new()`: hidden, not exploded, unflagged, `Empty`. -/
def Cell.new : Cell := ⟨false, false, false, CellValue.empty⟩

/-- `Cell::is_mined()`: `value == CellValue::Bomb`. -/
def Cell.is_mined (c : Cell) : Bool := c.value == CellValue.bomb

/-- `Cell::bombs_around()`: the count payload, `0` for `Bomb` and `Empty`. -/
def Cell.bombs_around (c : Cell) : Nat :=
  match c.value with
  | CellValue.bombsAround n => n
  | _ => 0

/-- `Cell::show()` (named `showCell` because `show` is a Lean keyword). -/
def Cell.showCell (c : Cell) : Cell := { c with shown := true }

/-- `Cell::toggle_flag()`. -/
def Cell.toggle_flag (c : Cell) : Cell := { c with flagged := !c.flagged }

/-- `Cell::plant_bomb()`. -/
def Cell.plant_bomb (c : Cell) : Cell := { c with value := CellValue.bomb }

/-- `Cell::explode()`. -/
def Cell.explode (c : Cell) : Cell := { c with exploded := true }

/-- `Cell::inc_bombs_around()`: unconditionally sets
`value = BombsAround(bombs_around() + 1)`; the `+ 1` is `u8` addition
(wrapping in release builds), hence the `% 256`. -/
def Cell.inc_bombs_around (c : Cell) : Cell :=
  { c with value := CellValue.bombsAround ((c.bombs_around + 1) % 256) }

/-- Mirrors the Rust enum `Status { InProgress(i8), Lost, Won }`; the `i8`
payload is modelled as an `Int` in `[-128, 127]`. -/
inductive Status where
  | inProgress (flagsLeft : Int) : Status
  | lost : Status
  | won : Status
  deriving DecidableEq

/-- The game state: `Game { rows, cols, bombs : u8, cells : HashMap<Pos, Cell>, has_lost : bool }`.
The `u8` fields are modelled as `Nat` (theorems add `≤ 255` bounds where the
`u8` range matters).  The map, which the source populates with exactly the
in-bounds positions, is modelled as a total function; every access in the
source is bounds-guarded, and out-of-bounds lookups are modelled by the
bounds-checked wrappers below. -/
@[ext]
structure Game where
  rows : Nat
  cols : Nat
  bombs : Nat
  cells : Nat × Nat → Cell
  has_lost : Bool

/-- Two's-complement reinterpretation of an integer as a signed 8-bit value.
This models both the Rust cast `as i8` and (applied to an exact result)
wrapping `i8` arithmetic, which coincide modulo 2^8. -/
def toI8 (z : Int) : Int := (z + 128) % 256 - 128

/-- `Game::new(rows, cols, bombs)`: all cells hidden and `Empty`, not lost. -/
def Game.new (rows cols bombs : Nat) : Game :=
  ⟨rows, cols, bombs, fun _ => Cell.new, false⟩

/-- Point update of the cell map (the effect of mutating through `cell_mut`). -/
def Game.update (g : Game) (p : Nat × Nat) (f : Cell → Cell) : Game :=
  { g with cells := fun q => if q = p then f (g.cells q) else g.cells q }

/-- A position is a key of the source's cell map iff it lies in
`[0, rows) × [0, cols)`. -/
def Game.inBounds (g : Game) (p : Nat × Nat) : Prop :=
  p.1 < g.rows ∧ p.2 < g.cols

instance (g : Game) (p : Nat × Nat) : Decidable (g.inBounds p) :=
  inferInstanceAs (Decidable (_ ∧ _))

/-- The in-bounds positions, as the source's construction loops enumerate them. -/
def Game.gridList (g : Game) : List (Nat × Nat) :=
  (List.range g.rows) ×ˢ (List.range g.cols)

/-- Number of shown in-bounds cells (the `cleared_cells` count in `is_won`). -/
def Game.shownCount (g : Game) : Nat :=
  g.gridList.countP (fun q => (g.cells q).shown)

/-- Number of flagged in-bounds cells (the `flagged_cells` count in `flags_left`). -/
def Game.flaggedCount (g : Game) : Nat :=
  g.gridList.countP (fun q => (g.cells q).flagged)

/-- Number of hidden in-bounds cells; the termination measure of the flood fill. -/
def Game.hiddenCount (g : Game) : Nat :=
  g.gridList.countP (fun q => !(g.cells q).shown)

/-- `Game::iter_neighbors`: the ranges `x.max(1)-1 ..= (x+1).min(rows-1)` and
`y.max(1)-1 ..= (y+1).min(cols-1)` (row-major, as the source's `flat_map`),
minus the centre position.  All arithmetic stays in `u8` range for in-bounds
`p` on boards with `rows, cols ≤ 255`, so plain `Nat` arithmetic is faithful. -/
def Game.iter_neighbors (g : Game) (p : Nat × Nat) : List (Nat × Nat) :=
  ((List.range' (max p.1 1 - 1) (min (p.1 + 1) (g.rows - 1) + 1 - (max p.1 1 - 1))) ×ˢ
      (List.range' (max p.2 1 - 1) (min (p.2 + 1) (g.cols - 1) + 1 - (max p.2 1 - 1)))).filter
    (fun q => q ≠ p)

/-- `Game::plant_bomb` (in-bounds core): mark the cell mined, then increment
`bombs_around` of every neighbour that is not itself mined at visit time. -/
def Game.plant_bomb (g : Game) (p : Nat × Nat) : Game :=
  ((g.update p Cell.plant_bomb).iter_neighbors p).foldl
    (fun h q => if (h.cells q).is_mined then h else h.update q Cell.inc_bombs_around)
    (g.update p Cell.plant_bomb)

/-- `Game::flags_left`: `self.bombs as i8 - flagged_cells as i8`, with `i8`
subtraction (wrapping in release builds). -/
def Game.flags_left (g : Game) : Int :=
  toI8 (toI8 g.bombs - toI8 g.flaggedCount)

/-- `Game::is_won`: `self.rows * self.cols - cleared_cells == self.bombs`, all
in `u8` (the count is cast `as u8`; product and difference wrap in release
builds, hence the `% 256`). -/
def Game.is_won (g : Game) : Bool :=
  ((g.rows * g.cols) % 256 + 256 - g.shownCount % 256) % 256 == g.bombs

/-- `Game::status`. -/
def Game.status (g : Game) : Status :=
  if g.has_lost then Status.lost
  else if g.is_won then Status.won
  else Status.inProgress g.flags_left

/-- `Game::toggle_flag` (in-bounds core): no-op on a shown cell, otherwise
flips the flag; returns the resulting status. -/
def Game.toggle_flag (g : Game) (p : Nat × Nat) : Status × Game :=
  if (g.cells p).shown then (g.status, g)
  else ((g.update p Cell.toggle_flag).status, g.update p Cell.toggle_flag)

/-- The nine offsets of `show_empty_neighbours`: `for i in [0, 1, -1] for j in
[0, 1, -1]`, in source order (including the `(0, 0)` self offset). -/
def sweepOffsets : List (Int × Int) :=
  [(0, 0), (0, 1), (0, -1), (1, 0), (1, 1), (1, -1), (-1, 0), (-1, 1), (-1, -1)]

/-- `Game::sweep_mine`, with an explicit fuel argument making the recursion
structural.  The coordinates are the source's `i8` values; the boundary check,
`rows - 1`/`cols - 1`, and the `x + i`/`y + j` offset additions all go through
`toI8` exactly where the source computes in `i8` (wrapping in release builds).
`sweep_mine_stable` below proves the result is fuel-independent once the fuel
exceeds `hiddenCount`, so `Game.sweep_mine` (which supplies that much fuel)
computes the limit of the source's recursion. -/
def sweepFuel : Nat → Game → Int × Int → Game
  | 0, g, _ => g
  | n + 1, g, xy =>
    if xy.1 < 0 ∨ xy.2 < 0 ∨ toI8 (toI8 g.rows - 1) < xy.1 ∨ toI8 (toI8 g.cols - 1) < xy.2 then
      g
    else if (g.cells (xy.1.toNat, xy.2.toNat)).shown ∨ (g.cells (xy.1.toNat, xy.2.toNat)).is_mined
        ∨ (g.cells (xy.1.toNat, xy.2.toNat)).flagged then
      g
    else if ((g.update (xy.1.toNat, xy.2.toNat) Cell.showCell).cells
        (xy.1.toNat, xy.2.toNat)).bombs_around < 1 then
      sweepOffsets.foldl (fun h d => sweepFuel n h (toI8 (xy.1 + d.1), toI8 (xy.2 + d.2)))
        (g.update (xy.1.toNat, xy.2.toNat) Cell.showCell)
    else
      g.update (xy.1.toNat, xy.2.toNat) Cell.showCell

/-- `Game::sweep_mine` proper: `hiddenCount + 1` units of fuel always suffice. -/
def Game.sweep_mine (g : Game) (xy : Int × Int) : Game :=
  sweepFuel (g.hiddenCount + 1) g xy

/-- `Game::open` (in-bounds core; named `openCell` because `open` is a Lean
keyword): no-op on a shown or flagged cell; otherwise explode-and-show a mined
cell and set `has_lost`, then flood fill from the (`as i8`-cast) position, and
return the resulting status. -/
def Game.openCell (g : Game) (p : Nat × Nat) : Status × Game :=
  if (g.cells p).shown ∨ (g.cells p).flagged then (g.status, g)
  else if (g.cells p).is_mined then
    ((Game.sweep_mine { g.update p (fun c => (c.explode).showCell) with has_lost := true }
        (toI8 p.1, toI8 p.2)).status,
      Game.sweep_mine { g.update p (fun c => (c.explode).showCell) with has_lost := true }
        (toI8 p.1, toI8 p.2))
  else
    ((g.sweep_mine (toI8 p.1, toI8 p.2)).status, g.sweep_mine (toI8 p.1, toI8 p.2))

/-- Outcome of a fallible call.  `outOfBounds` is the recoverable error value
the specification prescribes; the source never produces it.  `panicked` models
the Rust `panic!` in `Game::cell`/`Game::cell_mut` on a missing key: a
process-fatal condition, not a recoverable error value. -/
inductive Failure where
  | outOfBounds : Failure
  | panicked : Failure
  deriving DecidableEq

/-- `Game::open` as observed by a caller, including the failure channel. -/
def Game.openE (g : Game) (p : Nat × Nat) : Except Failure Status × Game :=
  if g.inBounds p then ((Except.ok (g.openCell p).1 : Except Failure Status), (g.openCell p).2)
  else ((Except.error Failure.panicked : Except Failure Status), g)

/-- `Game::toggle_flag` as observed by a caller. -/
def Game.toggleFlagE (g : Game) (p : Nat × Nat) : Except Failure Status × Game :=
  if g.inBounds p then ((Except.ok (g.toggle_flag p).1 : Except Failure Status), (g.toggle_flag p).2)
  else ((Except.error Failure.panicked : Except Failure Status), g)

/-- `Game::plant_bomb` as observed by a caller. -/
def Game.plantBombE (g : Game) (p : Nat × Nat) : Except Failure Unit × Game :=
  if g.inBounds p then ((Except.ok () : Except Failure Unit), g.plant_bomb p)
  else ((Except.error Failure.panicked : Except Failure Unit), g)

/-- `Game::cell` (the read accessor) as observed by a caller. -/
def Game.cellE (g : Game) (p : Nat × Nat) : Except Failure Cell :=
  if g.inBounds p then Except.ok (g.cells p) else Except.error Failure.panicked

/-- One caller-issued operation on the board. -/
inductive Op where
  | plantAt (p : Nat × Nat) : Op
  | toggleAt (p : Nat × Nat) : Op
  | openAt (p : Nat × Nat) : Op
  deriving DecidableEq

/-- Whether an operation is a `plant_bomb` call. -/
def Op.isPlant : Op → Bool
  | Op.plantAt _ => true
  | _ => false

/-- One step of the session: `none` models the out-of-bounds panic. -/
def Game.step (g : Game) : Op → Option Game
  | Op.plantAt p => if g.inBounds p then some (g.plant_bomb p) else none
  | Op.toggleAt p => if g.inBounds p then some (g.toggle_flag p).2 else none
  | Op.openAt p => if g.inBounds p then some (g.openCell p).2 else none

/-- Run a list of operations from a state. -/
def Game.run (g : Game) : List Op → Option Game
  | [] => some g
  | op :: rest =>
    match g.step op with
    | some g1 => g1.run rest
    | none => none

/-- The condition under which `Game::open` sets `has_lost`: the targeted cell
is in bounds, hidden, unflagged and mined at the moment of the call. -/
def lostTrigger (g : Game) : Op → Prop
  | Op.openAt p =>
      g.inBounds p ∧ (g.cells p).shown = false ∧ (g.cells p).flagged = false ∧
        (g.cells p).is_mined = true
  | _ => False

/-- Some operation along the run opens a then-mined, hidden, unflagged cell. -/
def TriggersLoss (g : Game) : List Op → Prop
  | [] => False
  | op :: rest =>
    match g.step op with
    | some g1 => lostTrigger g op ∨ TriggersLoss g1 rest
    | none => False

/-! ### Basic frame lemmas -/

theorem Game.cells_update (g : Game) (p : Nat × Nat) (f : Cell → Cell) (q : Nat × Nat) :
    (g.update p f).cells q = if q = p then f (g.cells q) else g.cells q := rfl

theorem Game.cells_update_self (g : Game) (p : Nat × Nat) (f : Cell → Cell) :
    (g.update p f).cells p = f (g.cells p) := by
  simp [Game.cells_update]

theorem Game.cells_update_other (g : Game) (p : Nat × Nat) (f : Cell → Cell) {q : Nat × Nat}
    (h : q ≠ p) : (g.update p f).cells q = g.cells q := by
  simp [Game.cells_update, h]

theorem toI8_mem (z : Int) : -128 ≤ toI8 z ∧ toI8 z ≤ 127 := by
  unfold toI8; omega

theorem toI8_eq_self {z : Int} (h1 : -128 ≤ z) (h2 : z ≤ 127) : toI8 z = z := by
  unfold toI8; omega

/-- If an `i8` coordinate passes the `sweep_mine` boundary check against a
`u8` dimension (both sides computed through the source's casts), its `Nat`
value is genuinely inside the dimension. -/
theorem pass_toNat_lt {rows : Nat} {x : Int} (h0 : 0 ≤ x)
    (h1 : x ≤ toI8 (toI8 (rows : Int) - 1)) : x.toNat < rows := by
  unfold toI8 at h1; omega

/-! ### Claim C1 -/

/-- Claim C1, counterexample: `open` at the out-of-bounds position `(3, 3)` of
a 3×3 board does not fail with the recoverable error value `OutOfBounds`; it
panics (the `unwrap_or_else(|| panic!(..))` in `Game::cell_mut`). -/
theorem c1_counterexample :
    ((Game.new 3 3 0).openE (3, 3)).1 = Except.error Failure.panicked ∧
    ((Game.new 3 3 0).openE (3, 3)).1 ≠ Except.error Failure.outOfBounds := by
  refine ⟨rfl, fun h => ?_⟩
  rw [show ((Game.new 3 3 0).openE (3, 3)).1 = Except.error Failure.panicked from rfl] at h
  injection h with h2
  exact Failure.noConfusion h2

/-- Claim C1 as amended: every position-addressed operation (`plant_bomb`,
`toggle_flag`, `open`, `cell`) applied at a position outside
`[0, rows) × [0, cols)` fails by panicking — a process-fatal condition, not a
recoverable `OutOfBounds` error value — and no board state changes before the
panic. -/
theorem c1_amended (g : Game) (p : Nat × Nat) (h : ¬g.inBounds p) :
    g.openE p = (Except.error Failure.panicked, g) ∧
    g.toggleFlagE p = (Except.error Failure.panicked, g) ∧
    g.plantBombE p = (Except.error Failure.panicked, g) ∧
    g.cellE p = Except.error Failure.panicked := by
  unfold Game.openE Game.toggleFlagE Game.plantBombE Game.cellE
  rw [if_neg h, if_neg h, if_neg h, if_neg h]
  exact ⟨rfl, rfl, rfl, rfl⟩

/-- Witness for `c1_amended` at the concrete out-of-bounds position `(0, 5)`. -/
theorem c1_amended_witness :
    ¬(Game.new 3 3 0).inBounds (0, 5) ∧
    (Game.new 3 3 0).openE (0, 5) = (Except.error Failure.panicked, Game.new 3 3 0) :=
  ⟨by decide, (c1_amended (Game.new 3 3 0) (0, 5) (by decide)).1⟩

/-! ### Claim C2, counterexample -/

/-- Claim C2, counterexample: `inc_bombs_around` on a mined cell is not a
no-op — the two-operation `Cell` sequence `plant_bomb; inc_bombs_around`
turns the content from `Mine` into `Count(1)` (the cell even stops being
mined). -/
theorem c2_counterexample :
    Cell.new.plant_bomb.inc_bombs_around.value = CellValue.bombsAround 1 ∧
    Cell.new.plant_bomb.inc_bombs_around ≠ Cell.new.plant_bomb ∧
    Cell.new.plant_bomb.inc_bombs_around.is_mined = false := by
  decide

/-! ### Claim C8 -/

/-- Claim C8: for an in-bounds position whose cell is already shown or
flagged, `open` is a no-op: it returns the current status and leaves the whole
board state (every cell's shown, flagged, exploded and content state)
unchanged. -/
theorem c8_open_noop (g : Game) (p : Nat × Nat) (_hin : g.inBounds p)
    (h : (g.cells p).shown = true ∨ (g.cells p).flagged = true) :
    g.openCell p = (g.status, g) := by
  unfold Game.openCell
  rw [if_pos]
  rcases h with h | h
  · exact Or.inl h
  · exact Or.inr h

/-- Witness for `c8_open_noop`: a 2×2 board whose cell `(0, 0)` has been
flagged. -/
theorem c8_open_noop_witness :
    ((Game.new 2 2 1).toggle_flag (0, 0)).2.openCell (0, 0) =
      (((Game.new 2 2 1).toggle_flag (0, 0)).2.status, ((Game.new 2 2 1).toggle_flag (0, 0)).2) :=
  c8_open_noop ((Game.new 2 2 1).toggle_flag (0, 0)).2 (0, 0) (by decide) (Or.inr (by decide))

/-! ### Claim C9 -/

theorem Cell.toggle_toggle (c : Cell) : c.toggle_flag.toggle_flag = c := by
  cases c; simp [Cell.toggle_flag]

/-- Claim C9: `toggle_flag` on an in-bounds shown cell is a no-op returning
the current status; on a hidden cell it is an involution — applying it twice
restores the entire board state, in particular the cell's flag and the
board's `flaggedCount`. -/
theorem c9_toggle_involution (g : Game) (p : Nat × Nat) (hin : g.inBounds p) :
    ((g.cells p).shown = true → g.toggle_flag p = (g.status, g)) ∧
    ((g.cells p).shown = false →
      (((g.toggle_flag p).2).cells p).flagged = !(g.cells p).flagged ∧
      ((g.toggle_flag p).2.toggle_flag p).2 = g ∧
      ((g.toggle_flag p).2.toggle_flag p).2.flaggedCount = g.flaggedCount) := by
  constructor
  · intro hshown
    unfold Game.toggle_flag
    rw [if_pos hshown]
  · intro hhid
    have hc : ¬((g.cells p).shown = true) := by simp [hhid]
    have h1 : (g.toggle_flag p).2 = g.update p Cell.toggle_flag := by
      simp only [Game.toggle_flag, if_neg hc]
    have hhid2 : ((g.update p Cell.toggle_flag).cells p).shown = false := by
      rw [Game.cells_update_self]
      cases hcell : g.cells p
      simp only [Cell.toggle_flag]
      rw [hcell] at hhid
      exact hhid
    have hc2 : ¬(((g.update p Cell.toggle_flag).cells p).shown = true) := by simp [hhid2]
    have h2 : ((g.update p Cell.toggle_flag).toggle_flag p).2 =
        (g.update p Cell.toggle_flag).update p Cell.toggle_flag := by
      simp only [Game.toggle_flag, if_neg hc2]
    have hstate : ((g.toggle_flag p).2.toggle_flag p).2 = g := by
      rw [h1, h2]
      ext q
      · rfl
      · rfl
      · rfl
      · by_cases hq : q = p
        · subst hq
          rw [Game.cells_update_self, Game.cells_update_self, Cell.toggle_toggle]
        · rw [Game.cells_update_other _ _ _ hq, Game.cells_update_other _ _ _ hq]
      · rfl
    have hflip : (((g.toggle_flag p).2).cells p).flagged = !(g.cells p).flagged := by
      rw [h1, Game.cells_update_self]
      rfl
    exact ⟨hflip, hstate, by rw [hstate]⟩

/-- Witness for `c9_toggle_involution`: double-toggling the hidden corner of a
fresh 2×2 board restores the initial state. -/
theorem c9_toggle_involution_witness :
    (((Game.new 2 2 1).toggle_flag (0, 0)).2.toggle_flag (0, 0)).2 = Game.new 2 2 1 :=
  ((c9_toggle_involution (Game.new 2 2 1) (0, 0) (by decide)).2 (by decide)).2.1

/-! ### Flood-fill structure: the fill only shows in-bounds hidden, unmined,
unflagged cells -/

theorem Cell.showCell_value (c : Cell) : c.showCell.value = c.value := rfl

theorem Cell.showCell_flagged (c : Cell) : c.showCell.flagged = c.flagged := rfl

theorem Cell.showCell_exploded (c : Cell) : c.showCell.exploded = c.exploded := rfl

theorem Cell.showCell_shown (c : Cell) : c.showCell.shown = true := rfl

theorem Cell.is_mined_showCell (c : Cell) : c.showCell.is_mined = c.is_mined := rfl

/-- Relation between a state and the result of (part of) a flood fill:
dimensions, bomb count and lost flag are unchanged, and each cell is either
untouched or was an in-bounds, hidden, unmined, unflagged cell that got
shown. -/
def SweepStep (g h : Game) : Prop :=
  h.rows = g.rows ∧ h.cols = g.cols ∧ h.bombs = g.bombs ∧ h.has_lost = g.has_lost ∧
    ∀ q, h.cells q = g.cells q ∨
      (g.inBounds q ∧ (g.cells q).shown = false ∧ (g.cells q).is_mined = false ∧
        (g.cells q).flagged = false ∧ h.cells q = Cell.showCell (g.cells q))

theorem sweepStep_refl (g : Game) : SweepStep g g :=
  ⟨rfl, rfl, rfl, rfl, fun _ => Or.inl rfl⟩

theorem sweepStep_trans {g h k : Game} (h1 : SweepStep g h) (h2 : SweepStep h k) :
    SweepStep g k := by
  obtain ⟨hr, hc, hb, hl, hcells⟩ := h1
  obtain ⟨kr, kc, kb, kl, kcells⟩ := h2
  refine ⟨kr.trans hr, kc.trans hc, kb.trans hb, kl.trans hl, fun q => ?_⟩
  rcases hcells q with he | ⟨hin, hs, hm, hf, he⟩
  · rcases kcells q with ke | ⟨kin, ks, km, kf, ke⟩
    · exact Or.inl (ke.trans he)
    · obtain ⟨k1, k2⟩ := kin
      rw [he] at ks km kf ke
      exact Or.inr ⟨⟨hr ▸ k1, hc ▸ k2⟩, ks, km, kf, ke⟩
  · rcases kcells q with ke | ⟨kin, ks, km, kf, ke⟩
    · exact Or.inr ⟨hin, hs, hm, hf, ke.trans he⟩
    · rw [he, Cell.showCell_shown] at ks
      cases ks

theorem sweepStep_foldl {α : Type} (f : Game → α → Game) (hf : ∀ h a, SweepStep h (f h a)) :
    ∀ (l : List α) (g : Game), SweepStep g (l.foldl f g)
  | [], g => sweepStep_refl g
  | a :: l, g => sweepStep_trans (hf g a) (sweepStep_foldl f hf l (f g a))

theorem sweepStep_update_show {g : Game} {q : Nat × Nat} (hin : g.inBounds q)
    (hs : (g.cells q).shown = false) (hm : (g.cells q).is_mined = false)
    (hf : (g.cells q).flagged = false) : SweepStep g (g.update q Cell.showCell) := by
  refine ⟨rfl, rfl, rfl, rfl, fun r => ?_⟩
  by_cases hr : r = q
  · subst hr
    exact Or.inr ⟨hin, hs, hm, hf, Game.cells_update_self g r Cell.showCell⟩
  · exact Or.inl (Game.cells_update_other g q Cell.showCell hr)

/-- The whole fuelled flood fill is a `SweepStep`, for any fuel. -/
theorem sweepStep_sweepFuel : ∀ (n : Nat) (g : Game) (xy : Int × Int),
    SweepStep g (sweepFuel n g xy)
  | 0, g, _ => sweepStep_refl g
  | n + 1, g, xy => by
    rw [sweepFuel]
    split
    · exact sweepStep_refl g
    · split
      · exact sweepStep_refl g
      · rename_i hbound hstop
        push_neg at hbound
        obtain ⟨hx0, hy0, hxr, hyc⟩ := hbound
        have hin : g.inBounds (xy.1.toNat, xy.2.toNat) :=
          ⟨pass_toNat_lt hx0 hxr, pass_toNat_lt hy0 hyc⟩
        push_neg at hstop
        obtain ⟨hs, hm, hf⟩ := hstop
        simp only [ne_eq, Bool.not_eq_true] at hs hm hf
        have hstep1 : SweepStep g (g.update (xy.1.toNat, xy.2.toNat) Cell.showCell) :=
          sweepStep_update_show hin hs hm hf
        split
        · exact sweepStep_trans hstep1
            (sweepStep_foldl _ (fun h d => sweepStep_sweepFuel n h _) sweepOffsets _)
        · exact hstep1

theorem sweepFuel_rows (n : Nat) (g : Game) (xy : Int × Int) :
    (sweepFuel n g xy).rows = g.rows := (sweepStep_sweepFuel n g xy).1

theorem sweepFuel_cols (n : Nat) (g : Game) (xy : Int × Int) :
    (sweepFuel n g xy).cols = g.cols := (sweepStep_sweepFuel n g xy).2.1

theorem sweepFuel_bombs (n : Nat) (g : Game) (xy : Int × Int) :
    (sweepFuel n g xy).bombs = g.bombs := (sweepStep_sweepFuel n g xy).2.2.1

theorem sweepFuel_has_lost (n : Nat) (g : Game) (xy : Int × Int) :
    (sweepFuel n g xy).has_lost = g.has_lost := (sweepStep_sweepFuel n g xy).2.2.2.1

/-- Cells that are mined or flagged are untouched by the fill. -/
theorem sweepFuel_cells_of_mined_or_flagged {n : Nat} {g : Game} {xy : Int × Int}
    {q : Nat × Nat} (h : (g.cells q).is_mined = true ∨ (g.cells q).flagged = true) :
    (sweepFuel n g xy).cells q = g.cells q := by
  rcases (sweepStep_sweepFuel n g xy).2.2.2.2 q with he | ⟨_, _, hm, hf, _⟩
  · exact he
  · rcases h with h | h
    · rw [h] at hm; cases hm
    · rw [h] at hf; cases hf

/-- The fill never changes a cell's content. -/
theorem sweepFuel_value (n : Nat) (g : Game) (xy : Int × Int) (q : Nat × Nat) :
    ((sweepFuel n g xy).cells q).value = (g.cells q).value := by
  rcases (sweepStep_sweepFuel n g xy).2.2.2.2 q with he | ⟨_, _, _, _, he⟩
  · rw [he]
  · rw [he, Cell.showCell_value]

/-- The fill never changes a cell's flag. -/
theorem sweepFuel_flagged (n : Nat) (g : Game) (xy : Int × Int) (q : Nat × Nat) :
    ((sweepFuel n g xy).cells q).flagged = (g.cells q).flagged := by
  rcases (sweepStep_sweepFuel n g xy).2.2.2.2 q with he | ⟨_, _, _, _, he⟩
  · rw [he]
  · rw [he, Cell.showCell_flagged]

/-- The fill never changes a cell's exploded bit. -/
theorem sweepFuel_exploded (n : Nat) (g : Game) (xy : Int × Int) (q : Nat × Nat) :
    ((sweepFuel n g xy).cells q).exploded = (g.cells q).exploded := by
  rcases (sweepStep_sweepFuel n g xy).2.2.2.2 q with he | ⟨_, _, _, _, he⟩
  · rw [he]
  · rw [he, Cell.showCell_exploded]

/-- Showing is monotone: a shown cell stays shown through the fill. -/
theorem sweepFuel_shown_mono {n : Nat} {g : Game} {xy : Int × Int} {q : Nat × Nat}
    (h : (g.cells q).shown = true) : ((sweepFuel n g xy).cells q).shown = true := by
  rcases (sweepStep_sweepFuel n g xy).2.2.2.2 q with he | ⟨_, _, _, _, he⟩
  · rw [he]; exact h
  · rw [he, Cell.showCell_shown]

/-! ### Termination of the flood fill: `hiddenCount` bounds the fuel -/

/-- Flipping the predicate from `true` to `false` at one element of a
duplicate-free list lowers `countP` by exactly one. -/
theorem countP_pred_update {α : Type} (p p' : α → Bool) (a : α) :
    ∀ (l : List α), l.Nodup → a ∈ l → p a = true → p' a = false →
      (∀ b, b ≠ a → p' b = p b) → l.countP p' + 1 = l.countP p := by
  intro l
  induction l with
  | nil => intro _ ha; exact absurd ha (List.not_mem_nil a)
  | cons b l ih =>
    intro hnd ha hpa hpa' hother
    rw [List.countP_cons, List.countP_cons]
    by_cases hb : b = a
    · subst hb
      have hnl : b ∉ l := (List.nodup_cons.mp hnd).1
      have hcong : l.countP p' = l.countP p :=
        List.countP_congr fun x hx => by rw [hother x fun hxa => hnl (hxa ▸ hx)]
      rw [hpa, hpa', hcong]
      simp
    · have hal : a ∈ l := by
        rcases List.mem_cons.mp ha with h1 | h1
        · exact absurd h1.symm hb
        · exact h1
      rw [hother b hb]
      have hrec := ih (List.nodup_cons.mp hnd).2 hal hpa hpa' hother
      omega

theorem mem_gridList {g : Game} {q : Nat × Nat} : q ∈ g.gridList ↔ g.inBounds q := by
  obtain ⟨x, y⟩ := q
  simp [Game.gridList, List.mem_product, List.mem_range, Game.inBounds]

theorem gridList_nodup (g : Game) : g.gridList.Nodup :=
  (List.nodup_range _).product (List.nodup_range _)

/-- Showing a hidden in-bounds cell decreases `hiddenCount` by exactly one. -/
theorem hiddenCount_update_show {g : Game} {q : Nat × Nat} (hin : g.inBounds q)
    (hs : (g.cells q).shown = false) :
    (g.update q Cell.showCell).hiddenCount + 1 = g.hiddenCount := by
  unfold Game.hiddenCount
  refine countP_pred_update _ _ q g.gridList (gridList_nodup g) (mem_gridList.mpr hin) ?_ ?_ ?_
  · simp [hs]
  · show (!((g.update q Cell.showCell).cells q).shown) = false
    rw [Game.cells_update_self]
    simp [Cell.showCell]
  · intro b hbq
    show (!((g.update q Cell.showCell).cells b).shown) = (!(g.cells b).shown)
    rw [Game.cells_update_other _ _ _ hbq]

theorem hiddenCount_le_of_sweepStep {g h : Game} (hs : SweepStep g h) :
    h.hiddenCount ≤ g.hiddenCount := by
  obtain ⟨hr, hc, _, _, hcells⟩ := hs
  unfold Game.hiddenCount Game.gridList
  rw [hr, hc]
  apply List.countP_mono_left
  intro q _ hq
  rcases hcells q with he | ⟨_, hsf, _, _, he⟩
  · rw [he] at hq; exact hq
  · simp [hsf]

/-- The fuelled flood fill is fuel-independent as soon as the fuel exceeds the
number of hidden in-bounds cells: beyond that bound the recursion has reached
its fixed point, i.e. the source's (unfuelled) recursion terminates. -/
theorem sweepFuel_stable (n : Nat) : ∀ (g : Game) (xy : Int × Int) (m : Nat),
    g.hiddenCount < n → g.hiddenCount < m → sweepFuel n g xy = sweepFuel m g xy := by
  induction n using Nat.strong_induction_on with
  | _ n IH =>
    intro g xy m hn hm
    cases n with
    | zero => omega
    | succ n' =>
      cases m with
      | zero => omega
      | succ m' =>
        rw [sweepFuel, sweepFuel]
        split
        · rfl
        · rename_i h1
          split
          · rfl
          · rename_i h2
            push_neg at h1
            obtain ⟨hx0, hy0, hxr, hyc⟩ := h1
            have hin : g.inBounds (xy.1.toNat, xy.2.toNat) :=
              ⟨pass_toNat_lt hx0 hxr, pass_toNat_lt hy0 hyc⟩
            push_neg at h2
            obtain ⟨hs, _, _⟩ := h2
            simp only [ne_eq, Bool.not_eq_true] at hs
            have hdec := hiddenCount_update_show hin hs
            have hfold : ∀ (l : List (Int × Int)) (h : Game),
                h.hiddenCount < n' → h.hiddenCount < m' →
                l.foldl (fun h d => sweepFuel n' h (toI8 (xy.1 + d.1), toI8 (xy.2 + d.2))) h =
                l.foldl (fun h d => sweepFuel m' h (toI8 (xy.1 + d.1), toI8 (xy.2 + d.2))) h := by
              intro l
              induction l with
              | nil => intro h _ _; rfl
              | cons d l ihl =>
                intro h hh1 hh2
                rw [List.foldl_cons, List.foldl_cons]
                have heq : sweepFuel n' h (toI8 (xy.1 + d.1), toI8 (xy.2 + d.2)) =
                    sweepFuel m' h (toI8 (xy.1 + d.1), toI8 (xy.2 + d.2)) :=
                  IH n' (Nat.lt_succ_self n') h _ m' hh1 hh2
                rw [← heq]
                have hle : (sweepFuel n' h (toI8 (xy.1 + d.1), toI8 (xy.2 + d.2))).hiddenCount ≤
                    h.hiddenCount :=
                  hiddenCount_le_of_sweepStep (sweepStep_sweepFuel n' h _)
                exact ihl _ (by omega) (by omega)
            split
            · exact hfold sweepOffsets _ (by omega) (by omega)
            · rfl

/-- `hiddenCount + 1` units of fuel (the amount `Game.sweep_mine` supplies)
already compute the limit of the recursion. -/
theorem sweepFuel_eq_sweep_mine {n : Nat} (g : Game) (xy : Int × Int)
    (h : g.hiddenCount < n) : sweepFuel n g xy = g.sweep_mine xy :=
  sweepFuel_stable n g xy (g.hiddenCount + 1) h (Nat.lt_succ_self _)

theorem shownCount_le (g : Game) : g.shownCount ≤ g.rows * g.cols := by
  unfold Game.shownCount
  calc g.gridList.countP (fun q => (g.cells q).shown) ≤ g.gridList.length :=
        List.countP_le_length _
    _ = g.rows * g.cols := by
        rw [Game.gridList, List.length_product, List.length_range, List.length_range]

theorem hiddenCount_le_grid (g : Game) : g.hiddenCount ≤ g.rows * g.cols := by
  unfold Game.hiddenCount
  calc g.gridList.countP (fun q => !(g.cells q).shown) ≤ g.gridList.length :=
        List.countP_le_length _
    _ = g.rows * g.cols := by
        rw [Game.gridList, List.length_product, List.length_range, List.length_range]

/-! ### Claim C4 -/

/-- Claim C4: on a board with fixed finite dimensions the flood-fill reveal
terminates, visiting each cell at most once and newly showing at most
`rows * cols` cells, with the shown flag acting as the visited marker.
Formally: (1) `hiddenCount ≤ rows * cols`, and (2) the fuel-indexed
approximations of the recursion all agree once the fuel exceeds
`hiddenCount` — so the source's recursion reaches a fixed point within
`rows * cols + 1` nested calls per branch and terminates, each cell being
shown (visited productively) at most once since (3) `shown` is monotone
through the fill and is exactly the check that discards revisits; and (4) the
fill's result has at most `rows * cols` shown cells in total. -/
theorem c4_flood_fill_terminates :
    (∀ g : Game, g.hiddenCount ≤ g.rows * g.cols) ∧
    (∀ (g : Game) (xy : Int × Int) (n : Nat), g.hiddenCount < n →
        sweepFuel n g xy = g.sweep_mine xy) ∧
    (∀ (g : Game) (xy : Int × Int) (q : Nat × Nat), (g.cells q).shown = true →
        ((g.sweep_mine xy).cells q).shown = true) ∧
    (∀ (g : Game) (xy : Int × Int), (g.sweep_mine xy).shownCount ≤ g.rows * g.cols) := by
  refine ⟨hiddenCount_le_grid, fun g xy n h => sweepFuel_eq_sweep_mine g xy h,
    fun g xy q h => sweepFuel_shown_mono h, fun g xy => ?_⟩
  have h1 := shownCount_le (g.sweep_mine xy)
  rw [show (g.sweep_mine xy).rows = g.rows from sweepFuel_rows _ g xy,
    show (g.sweep_mine xy).cols = g.cols from sweepFuel_cols _ g xy] at h1
  exact h1

/-! ### `plant_bomb` structure -/

theorem iter_neighbors_nodup (g : Game) (p : Nat × Nat) : (g.iter_neighbors p).Nodup :=
  ((List.nodup_range' _ _).product (List.nodup_range' _ _)).filter _

theorem not_mem_iter_neighbors_self (g : Game) (p : Nat × Nat) : p ∉ g.iter_neighbors p := by
  unfold Game.iter_neighbors
  intro h
  have h2 := (List.mem_filter.mp h).2
  simp at h2

theorem iter_neighbors_update (g : Game) (r : Nat × Nat) (f : Cell → Cell) (p : Nat × Nat) :
    (g.update r f).iter_neighbors p = g.iter_neighbors p := rfl

/-- Effect of the neighbour-increment loop of `plant_bomb` on each cell: a
listed (necessarily distinct) neighbour is incremented iff it was not mined,
everything else is untouched. -/
theorem plantFold_cells :
    ∀ (l : List (Nat × Nat)) (h : Game) (q : Nat × Nat), l.Nodup →
      ((l.foldl (fun h q => if (h.cells q).is_mined then h else h.update q Cell.inc_bombs_around)
          h).cells q) =
        if q ∈ l ∧ (h.cells q).is_mined = false then Cell.inc_bombs_around (h.cells q)
        else h.cells q := by
  intro l
  induction l with
  | nil =>
    intro h q _
    simp
  | cons b l ih =>
    intro h q hnd
    rw [List.foldl_cons]
    rw [ih _ q (List.nodup_cons.mp hnd).2]
    by_cases hq : q = b
    · subst hq
      have hql : q ∉ l := (List.nodup_cons.mp hnd).1
      rw [if_neg (fun hc => hql hc.1)]
      by_cases hm : (h.cells q).is_mined = true
      · rw [if_pos hm, if_neg (fun hc => by rw [hm] at hc; cases hc.2)]
      · have hm' : (h.cells q).is_mined = false := by
          cases hmv : (h.cells q).is_mined
          · rfl
          · exact absurd hmv hm
        rw [if_neg hm, Game.cells_update_self,
          if_pos ⟨List.mem_cons_self q l, hm'⟩]
    · have hcq : ((if (h.cells b).is_mined then h
          else h.update b Cell.inc_bombs_around) : Game).cells q = h.cells q := by
        split
        · rfl
        · exact Game.cells_update_other _ _ _ hq
      rw [hcq]
      simp only [List.mem_cons, hq, false_or]

theorem plantFold_field {α : Type} (F : Game → α)
    (hF : ∀ (h : Game) (q : Nat × Nat), F (h.update q Cell.inc_bombs_around) = F h) :
    ∀ (l : List (Nat × Nat)) (h : Game),
      F (l.foldl (fun h q => if (h.cells q).is_mined then h
          else h.update q Cell.inc_bombs_around) h) = F h := by
  intro l
  induction l with
  | nil => intro h; rfl
  | cons b l ih =>
    intro h
    rw [List.foldl_cons, ih]
    split
    · rfl
    · exact hF h b

theorem plant_bomb_rows (g : Game) (p : Nat × Nat) : (g.plant_bomb p).rows = g.rows :=
  (plantFold_field Game.rows (fun _ _ => rfl) _ _).trans rfl

theorem plant_bomb_cols (g : Game) (p : Nat × Nat) : (g.plant_bomb p).cols = g.cols :=
  (plantFold_field Game.cols (fun _ _ => rfl) _ _).trans rfl

theorem plant_bomb_bombs (g : Game) (p : Nat × Nat) : (g.plant_bomb p).bombs = g.bombs :=
  (plantFold_field Game.bombs (fun _ _ => rfl) _ _).trans rfl

theorem plant_bomb_has_lost (g : Game) (p : Nat × Nat) :
    (g.plant_bomb p).has_lost = g.has_lost :=
  (plantFold_field Game.has_lost (fun _ _ => rfl) _ _).trans rfl

/-- Cell-by-cell effect of `plant_bomb`: the target becomes mined; a
non-mined listed neighbour is incremented; everything else is untouched. -/
theorem plant_bomb_cells (g : Game) (p q : Nat × Nat) :
    (g.plant_bomb p).cells q =
      if q = p then Cell.plant_bomb (g.cells p)
      else if q ∈ g.iter_neighbors p ∧ (g.cells q).is_mined = false then
        Cell.inc_bombs_around (g.cells q)
      else g.cells q := by
  unfold Game.plant_bomb
  rw [plantFold_cells _ _ _ (iter_neighbors_nodup _ _), iter_neighbors_update]
  by_cases hq : q = p
  · subst hq
    rw [if_pos rfl, if_neg (fun hc => not_mem_iter_neighbors_self g q hc.1)]
    exact Game.cells_update_self g q Cell.plant_bomb
  · rw [if_neg hq]
    rw [Game.cells_update_other _ _ _ hq]

/-! ### Frame lemmas for `toggle_flag` and `openCell` -/

theorem Cell.toggle_flag_value (c : Cell) : c.toggle_flag.value = c.value := rfl

theorem Cell.toggle_flag_shown (c : Cell) : c.toggle_flag.shown = c.shown := rfl

theorem toggle_flag_rows (g : Game) (p : Nat × Nat) : ((g.toggle_flag p).2).rows = g.rows := by
  unfold Game.toggle_flag
  split
  · rfl
  · rfl

theorem toggle_flag_cols (g : Game) (p : Nat × Nat) : ((g.toggle_flag p).2).cols = g.cols := by
  unfold Game.toggle_flag
  split
  · rfl
  · rfl

theorem toggle_flag_bombs (g : Game) (p : Nat × Nat) : ((g.toggle_flag p).2).bombs = g.bombs := by
  unfold Game.toggle_flag
  split
  · rfl
  · rfl

theorem toggle_flag_has_lost (g : Game) (p : Nat × Nat) :
    ((g.toggle_flag p).2).has_lost = g.has_lost := by
  unfold Game.toggle_flag
  split
  · rfl
  · rfl

theorem toggle_flag_value_cells (g : Game) (p q : Nat × Nat) :
    (((g.toggle_flag p).2).cells q).value = (g.cells q).value := by
  unfold Game.toggle_flag
  split
  · rfl
  · show (((g.update p Cell.toggle_flag)).cells q).value = (g.cells q).value
    by_cases hq : q = p
    · subst hq
      rw [Game.cells_update_self, Cell.toggle_flag_value]
    · rw [Game.cells_update_other _ _ _ hq]

theorem toggle_flag_shown_cells (g : Game) (p q : Nat × Nat) :
    (((g.toggle_flag p).2).cells q).shown = (g.cells q).shown := by
  unfold Game.toggle_flag
  split
  · rfl
  · show (((g.update p Cell.toggle_flag)).cells q).shown = (g.cells q).shown
    by_cases hq : q = p
    · subst hq
      rw [Game.cells_update_self, Cell.toggle_flag_shown]
    · rw [Game.cells_update_other _ _ _ hq]

theorem openCell_rows (g : Game) (p : Nat × Nat) : ((g.openCell p).2).rows = g.rows := by
  unfold Game.openCell
  split
  · rfl
  · split
    · exact sweepFuel_rows _ _ _
    · exact sweepFuel_rows _ _ _

theorem openCell_cols (g : Game) (p : Nat × Nat) : ((g.openCell p).2).cols = g.cols := by
  unfold Game.openCell
  split
  · rfl
  · split
    · exact sweepFuel_cols _ _ _
    · exact sweepFuel_cols _ _ _

theorem openCell_bombs (g : Game) (p : Nat × Nat) : ((g.openCell p).2).bombs = g.bombs := by
  unfold Game.openCell
  split
  · rfl
  · split
    · exact sweepFuel_bombs _ _ _
    · exact sweepFuel_bombs _ _ _

/-- `open` never changes any cell's content. -/
theorem openCell_value_cells (g : Game) (p q : Nat × Nat) :
    (((g.openCell p).2).cells q).value = (g.cells q).value := by
  unfold Game.openCell
  split
  · rfl
  · split
    · rw [show (((Game.sweep_mine
          { g.update p (fun c => (c.explode).showCell) with has_lost := true }
          (toI8 p.1, toI8 p.2)).cells q).value) =
          ((({ g.update p (fun c => (c.explode).showCell) with
              has_lost := true } : Game).cells q).value) from sweepFuel_value _ _ _ _]
      show (((g.update p (fun c => (c.explode).showCell)).cells q).value) = (g.cells q).value
      by_cases hq : q = p
      · subst hq
        rw [Game.cells_update_self]
        rfl
      · rw [Game.cells_update_other _ _ _ hq]
    · exact sweepFuel_value _ _ _ _

/-- `open` never changes any cell's flag. -/
theorem openCell_flagged_cells (g : Game) (p q : Nat × Nat) :
    (((g.openCell p).2).cells q).flagged = (g.cells q).flagged := by
  unfold Game.openCell
  split
  · rfl
  · split
    · rw [show (((Game.sweep_mine
          { g.update p (fun c => (c.explode).showCell) with has_lost := true }
          (toI8 p.1, toI8 p.2)).cells q).flagged) =
          ((({ g.update p (fun c => (c.explode).showCell) with
              has_lost := true } : Game).cells q).flagged) from sweepFuel_flagged _ _ _ _]
      show (((g.update p (fun c => (c.explode).showCell)).cells q).flagged) = (g.cells q).flagged
      by_cases hq : q = p
      · subst hq
        rw [Game.cells_update_self]
        rfl
      · rw [Game.cells_update_other _ _ _ hq]
    · exact sweepFuel_flagged _ _ _ _

theorem Cell.is_mined_of_value_eq {c d : Cell} (h : c.value = d.value) :
    c.is_mined = d.is_mined := by
  unfold Cell.is_mined
  rw [h]

/-! ### Claim C2 -/

/-- Claim C2 as amended: `inc_bombs_around` is not a no-op on a mined cell —
it rewrites the content to `Count(1)` (since `bombs_around` reads `0` off a
`Mine`); however, every `Game` operation guards the increment with an
`is_mined` check, so across all `Game` operations a cell that is mined stays
mined and never holds a `Count` content afterwards. -/
theorem c2_amended :
    (∀ c : Cell, c.is_mined = true →
        c.inc_bombs_around.value = CellValue.bombsAround 1) ∧
    (∀ (g g1 : Game) (op : Op) (q : Nat × Nat), g.step op = some g1 →
        (g.cells q).is_mined = true → (g1.cells q).is_mined = true) := by
  constructor
  · intro c hm
    have hv : c.value = CellValue.bomb := eq_of_beq hm
    have hz : c.bombs_around = 0 := by
      unfold Cell.bombs_around
      rw [hv]
    show CellValue.bombsAround ((c.bombs_around + 1) % 256) = CellValue.bombsAround 1
    rw [hz]
  · intro g g1 op q hstep hm
    cases op with
    | plantAt p =>
      simp only [Game.step] at hstep
      split at hstep
      · injection hstep with h
        subst h
        rw [plant_bomb_cells]
        by_cases hq : q = p
        · subst hq
          rw [if_pos rfl]
          rfl
        · rw [if_neg hq, if_neg (fun hc => by rw [hm] at hc; cases hc.2)]
          exact hm
      · cases hstep
    | toggleAt p =>
      simp only [Game.step] at hstep
      split at hstep
      · injection hstep with h
        subst h
        rw [Cell.is_mined_of_value_eq (toggle_flag_value_cells g p q)]
        exact hm
      · cases hstep
    | openAt p =>
      simp only [Game.step] at hstep
      split at hstep
      · injection hstep with h
        subst h
        rw [Cell.is_mined_of_value_eq (openCell_value_cells g p q)]
        exact hm
      · cases hstep

/-! ### The lost flag: characterisation and stickiness (claim C6) -/

theorem sweep_mine_has_lost (g : Game) (xy : Int × Int) :
    (g.sweep_mine xy).has_lost = g.has_lost := sweepFuel_has_lost _ _ _

/-- `has_lost` after `open`: the old flag, or-ed with the trigger condition
(a hidden, unflagged, mined targeted cell). -/
theorem openCell_has_lost (g : Game) (p : Nat × Nat) :
    ((g.openCell p).2).has_lost =
      (g.has_lost || ((!(g.cells p).shown) && (!(g.cells p).flagged) &&
        (g.cells p).is_mined)) := by
  unfold Game.openCell
  split
  · rename_i h
    rcases h with h | h
    · simp [h]
    · simp [h]
  · rename_i h
    push_neg at h
    obtain ⟨hs, hf⟩ := h
    simp only [ne_eq, Bool.not_eq_true] at hs hf
    split
    · rename_i hm
      show (Game.sweep_mine
          { g.update p (fun c => (c.explode).showCell) with has_lost := true }
          (toI8 p.1, toI8 p.2)).has_lost = _
      rw [sweep_mine_has_lost]
      show true = _
      simp [hs, hf, hm]
    · rename_i hm
      have hm' : (g.cells p).is_mined = false := by
        cases hmv : (g.cells p).is_mined
        · rfl
        · exact absurd hmv hm
      show (g.sweep_mine (toI8 p.1, toI8 p.2)).has_lost = _
      rw [sweep_mine_has_lost]
      simp [hs, hf, hm']

theorem openCell_fst (g : Game) (p : Nat × Nat) :
    (g.openCell p).1 = ((g.openCell p).2).status := by
  unfold Game.openCell
  split
  · rfl
  · split
    · rfl
    · rfl

theorem toggle_flag_fst (g : Game) (p : Nat × Nat) :
    (g.toggle_flag p).1 = ((g.toggle_flag p).2).status := by
  unfold Game.toggle_flag
  split
  · rfl
  · rfl

theorem status_eq_lost_iff (g : Game) : g.status = Status.lost ↔ g.has_lost = true := by
  unfold Game.status
  split
  · rename_i h
    simp [h]
  · rename_i h
    split
    · simp [h]
    · simp [h]

/-- Per-step characterisation of `has_lost`. -/
theorem step_has_lost {g g1 : Game} {op : Op} (h : g.step op = some g1) :
    g1.has_lost = true ↔ (g.has_lost = true ∨ lostTrigger g op) := by
  cases op with
  | plantAt p =>
    simp only [Game.step] at h
    split at h
    · injection h with h2
      subst h2
      rw [plant_bomb_has_lost]
      simp [lostTrigger]
    · cases h
  | toggleAt p =>
    simp only [Game.step] at h
    split at h
    · injection h with h2
      subst h2
      rw [toggle_flag_has_lost]
      simp [lostTrigger]
    · cases h
  | openAt p =>
    simp only [Game.step] at h
    split at h
    · rename_i hin
      injection h with h2
      subst h2
      rw [openCell_has_lost]
      simp only [lostTrigger, Bool.or_eq_true, Bool.and_eq_true, Bool.not_eq_true']
      constructor
      · rintro (hl | ⟨⟨hs, hf⟩, hm⟩)
        · exact Or.inl hl
        · exact Or.inr ⟨hin, hs, hf, hm⟩
      · rintro (hl | ⟨_, hs, hf, hm⟩)
        · exact Or.inl hl
        · exact Or.inr ⟨⟨hs, hf⟩, hm⟩
    · cases h

theorem run_cons_some {g g1 : Game} {op : Op} (hstep : g.step op = some g1) (rest : List Op) :
    g.run (op :: rest) = g1.run rest := by
  show (match g.step op with | some h => h.run rest | none => none) = g1.run rest
  rw [hstep]

theorem triggersLoss_cons_some {g g1 : Game} {op : Op} (hstep : g.step op = some g1)
    (rest : List Op) :
    TriggersLoss g (op :: rest) ↔ (lostTrigger g op ∨ TriggersLoss g1 rest) := by
  show (match g.step op with
    | some g1 => lostTrigger g op ∨ TriggersLoss g1 rest
    | none => False) ↔ _
  rw [hstep]

theorem run_cons_eq_some {g g' : Game} {op : Op} {rest : List Op}
    (h : g.run (op :: rest) = some g') :
    ∃ g1, g.step op = some g1 ∧ g1.run rest = some g' := by
  unfold Game.run at h
  cases hstep : g.step op with
  | none => rw [hstep] at h; cases h
  | some g1 =>
    rw [hstep] at h
    exact ⟨g1, rfl, h⟩

/-- Trace-level characterisation of `has_lost`. -/
theorem run_has_lost : ∀ (ops : List Op) (g g' : Game), g.run ops = some g' →
    (g'.has_lost = true ↔ (g.has_lost = true ∨ TriggersLoss g ops)) := by
  intro ops
  induction ops with
  | nil =>
    intro g g' h
    injection h with h2
    subst h2
    simp [TriggersLoss]
  | cons op rest ih =>
    intro g g' h
    obtain ⟨g1, hstep, hrest⟩ := run_cons_eq_some h
    rw [ih g1 g' hrest, step_has_lost hstep, triggersLoss_cons_some hstep]
    tauto

/-! ### Claim C6 -/

/-- Claim C6: from a fresh board, the status is `Lost` iff some `open` call
along the run targeted a then-mined, unflagged, not-yet-shown cell (the flood
fill itself never sets the flag, which `TriggersLoss` makes precise by
demanding the trigger at the moment of the `open` call); and the flag is
sticky — once the status is `Lost`, every later run keeps it `Lost`, and both
`open` and `toggle_flag` on a lost board return `Lost`. -/
theorem c6_lost_iff_and_sticky :
    (∀ (r c b : Nat) (ops : List Op) (g' : Game),
        (Game.new r c b).run ops = some g' →
        (g'.status = Status.lost ↔ TriggersLoss (Game.new r c b) ops)) ∧
    (∀ (g : Game) (more : List Op) (g'' : Game), g.status = Status.lost →
        g.run more = some g'' → g''.status = Status.lost) ∧
    (∀ (g : Game) (p : Nat × Nat), g.has_lost = true →
        (g.openCell p).1 = Status.lost ∧ (g.toggle_flag p).1 = Status.lost ∧
        g.status = Status.lost) := by
  refine ⟨fun r c b ops g' hrun => ?_, fun g more g'' hlost hrun => ?_, fun g p hl => ?_⟩
  · rw [status_eq_lost_iff, run_has_lost ops _ g' hrun]
    show (Game.new r c b).has_lost = true ∨ _ ↔ _
    simp [Game.new]
  · rw [status_eq_lost_iff] at hlost ⊢
    exact (run_has_lost more g g'' hrun).mpr (Or.inl hlost)
  · refine ⟨?_, ?_, ?_⟩
    · rw [openCell_fst, status_eq_lost_iff, openCell_has_lost, hl]
      rfl
    · rw [toggle_flag_fst, status_eq_lost_iff, toggle_flag_has_lost]
      exact hl
    · rw [status_eq_lost_iff]
      exact hl

/-! ### Reveal safety (claim C3) -/

theorem sweep_mine_cells_of_mined_or_flagged {g : Game} {xy : Int × Int} {q : Nat × Nat}
    (h : (g.cells q).is_mined = true ∨ (g.cells q).flagged = true) :
    (g.sweep_mine xy).cells q = g.cells q := sweepFuel_cells_of_mined_or_flagged h

theorem plant_bomb_shown_cells (g : Game) (p q : Nat × Nat) :
    ((g.plant_bomb p).cells q).shown = (g.cells q).shown := by
  rw [plant_bomb_cells]
  by_cases hq : q = p
  · subst hq
    rw [if_pos rfl]
    rfl
  · rw [if_neg hq]
    split
    · rfl
    · rfl

theorem plant_bomb_flagged_cells (g : Game) (p q : Nat × Nat) :
    ((g.plant_bomb p).cells q).flagged = (g.cells q).flagged := by
  rw [plant_bomb_cells]
  by_cases hq : q = p
  · subst hq
    rw [if_pos rfl]
    rfl
  · rw [if_neg hq]
    split
    · rfl
    · rfl

/-- A flagged cell is entirely untouched by `open` (this is the flood fill's
flag check plus the early return). -/
theorem openCell_cells_of_flagged {g : Game} {p q : Nat × Nat}
    (hf : (g.cells q).flagged = true) :
    ((g.openCell p).2).cells q = g.cells q := by
  unfold Game.openCell
  split
  · rfl
  · rename_i hng
    push_neg at hng
    obtain ⟨_, hfp⟩ := hng
    simp only [ne_eq, Bool.not_eq_true] at hfp
    split
    · have hq : q ≠ p := fun he => by rw [he, hfp] at hf; cases hf
      show (Game.sweep_mine
          { g.update p (fun c => (c.explode).showCell) with has_lost := true }
          (toI8 p.1, toI8 p.2)).cells q = g.cells q
      have hXq : ({ g.update p (fun c => (c.explode).showCell) with
          has_lost := true } : Game).cells q = g.cells q := by
        show (g.update p (fun c => (c.explode).showCell)).cells q = g.cells q
        exact Game.cells_update_other _ _ _ hq
      rw [sweep_mine_cells_of_mined_or_flagged (Or.inr (by rw [hXq]; exact hf))]
      exact hXq
    · show (g.sweep_mine (toI8 p.1, toI8 p.2)).cells q = g.cells q
      exact sweep_mine_cells_of_mined_or_flagged (Or.inr hf)

/-- A mined cell other than the one directly opened keeps its shown state. -/
theorem openCell_shown_of_mined {g : Game} {p q : Nat × Nat}
    (hm : (g.cells q).is_mined = true) (hq : q ≠ p) :
    (((g.openCell p).2).cells q).shown = (g.cells q).shown := by
  unfold Game.openCell
  split
  · rfl
  · split
    · show ((Game.sweep_mine
          { g.update p (fun c => (c.explode).showCell) with has_lost := true }
          (toI8 p.1, toI8 p.2)).cells q).shown = _
      have hXq : ({ g.update p (fun c => (c.explode).showCell) with
          has_lost := true } : Game).cells q = g.cells q := by
        show (g.update p (fun c => (c.explode).showCell)).cells q = g.cells q
        exact Game.cells_update_other _ _ _ hq
      rw [sweep_mine_cells_of_mined_or_flagged (Or.inl (by rw [hXq]; exact hm)), hXq]
    · show ((g.sweep_mine (toI8 p.1, toI8 p.2)).cells q).shown = _
      rw [sweep_mine_cells_of_mined_or_flagged (Or.inl hm)]

theorem toggle_flag_cells (g : Game) (p q : Nat × Nat) :
    ((g.toggle_flag p).2).cells q =
      if (g.cells p).shown = true then g.cells q
      else if q = p then Cell.toggle_flag (g.cells q) else g.cells q := by
  unfold Game.toggle_flag
  split
  · rfl
  · show (g.update p Cell.toggle_flag).cells q = _
    by_cases hqp : q = p
    · subst hqp
      rw [Game.cells_update_self, if_pos rfl]
    · rw [Game.cells_update_other _ _ _ hqp, if_neg hqp]

/-- Each step preserves the invariant that no flagged cell is shown. -/
theorem step_flag_hidden {g g1 : Game} {op : Op} (h : g.step op = some g1)
    (inv : ∀ q, (g.cells q).flagged = true → (g.cells q).shown = false) :
    ∀ q, (g1.cells q).flagged = true → (g1.cells q).shown = false := by
  cases op with
  | plantAt p =>
    simp only [Game.step] at h
    split at h
    · injection h with h2
      subst h2
      intro q hf
      rw [plant_bomb_shown_cells]
      rw [plant_bomb_flagged_cells] at hf
      exact inv q hf
    · cases h
  | toggleAt p =>
    simp only [Game.step] at h
    split at h
    · injection h with h2
      subst h2
      intro q hf
      rw [toggle_flag_cells] at hf
      rw [toggle_flag_cells]
      by_cases hsp : (g.cells p).shown = true
      · rw [if_pos hsp] at hf ⊢
        exact inv q hf
      · rw [if_neg hsp] at hf ⊢
        by_cases hqp : q = p
        · rw [if_pos hqp]
          rw [Cell.toggle_flag_shown, hqp]
          cases hsv : (g.cells p).shown
          · rfl
          · exact absurd hsv hsp
        · rw [if_neg hqp] at hf ⊢
          exact inv q hf
    · cases h
  | openAt p =>
    simp only [Game.step] at h
    split at h
    · injection h with h2
      subst h2
      intro q hf
      have hfg : (g.cells q).flagged = true := by
        rw [← openCell_flagged_cells g p q]
        exact hf
      rw [openCell_cells_of_flagged hfg]
      exact inv q hfg
    · cases h

theorem run_flag_hidden : ∀ (ops : List Op) (g g' : Game), g.run ops = some g' →
    (∀ q, (g.cells q).flagged = true → (g.cells q).shown = false) →
    ∀ q, (g'.cells q).flagged = true → (g'.cells q).shown = false := by
  intro ops
  induction ops with
  | nil =>
    intro g g' h inv
    injection h with h2
    subst h2
    exact inv
  | cons op rest ih =>
    intro g g' h inv
    obtain ⟨g1, hstep, hrest⟩ := run_cons_eq_some h
    exact ih g1 g' hrest (step_flag_hidden hstep inv)

theorem step_value_no_plant {g g1 : Game} {op : Op} (h : g.step op = some g1)
    (hnp : op.isPlant = false) (q : Nat × Nat) :
    (g1.cells q).value = (g.cells q).value := by
  cases op with
  | plantAt p => simp [Op.isPlant] at hnp
  | toggleAt p =>
    simp only [Game.step] at h
    split at h
    · injection h with h2
      subst h2
      exact toggle_flag_value_cells g p q
    · cases h
  | openAt p =>
    simp only [Game.step] at h
    split at h
    · injection h with h2
      subst h2
      exact openCell_value_cells g p q
    · cases h

theorem run_value_no_plant : ∀ (ops : List Op) (g g' : Game),
    (∀ op ∈ ops, op.isPlant = false) → g.run ops = some g' →
    ∀ q, (g'.cells q).value = (g.cells q).value := by
  intro ops
  induction ops with
  | nil =>
    intro g g' _ h q
    injection h with h2
    subst h2
    rfl
  | cons op rest ih =>
    intro g g' hops h q
    obtain ⟨g1, hstep, hrest⟩ := run_cons_eq_some h
    rw [ih g1 g' (fun o ho => hops o (List.mem_cons_of_mem _ ho)) hrest q,
      step_value_no_plant hstep (hops op (List.mem_cons_self _ _)) q]

theorem run_shown_plants : ∀ (ops : List Op) (g g' : Game),
    (∀ op ∈ ops, op.isPlant = true) → g.run ops = some g' →
    ∀ q, ((g'.cells q).shown) = ((g.cells q).shown) := by
  intro ops
  induction ops with
  | nil =>
    intro g g' _ h q
    injection h with h2
    subst h2
    rfl
  | cons op rest ih =>
    intro g g' hops h q
    obtain ⟨g1, hstep, hrest⟩ := run_cons_eq_some h
    rw [ih g1 g' (fun o ho => hops o (List.mem_cons_of_mem _ ho)) hrest q]
    cases op with
    | plantAt p =>
      simp only [Game.step] at hstep
      split at hstep
      · injection hstep with h2
        subst h2
        exact plant_bomb_shown_cells g p q
      · cases hstep
    | toggleAt p =>
      have := hops (Op.toggleAt p) (List.mem_cons_self _ _)
      simp [Op.isPlant] at this
    | openAt p =>
      have := hops (Op.openAt p) (List.mem_cons_self _ _)
      simp [Op.isPlant] at this

/-- If a mined cell is shown after a non-planting step, it was already shown
or the step opened exactly that cell. -/
theorem step_mined_shown {g g1 : Game} {op : Op} (h : g.step op = some g1)
    (hnp : op.isPlant = false) {q : Nat × Nat} (hm : (g.cells q).is_mined = true)
    (hshown : (g1.cells q).shown = true) :
    (g.cells q).shown = true ∨ op = Op.openAt q := by
  cases op with
  | plantAt p => simp [Op.isPlant] at hnp
  | toggleAt p =>
    left
    simp only [Game.step] at h
    split at h
    · injection h with h2
      subst h2
      rw [← toggle_flag_shown_cells g p q]
      exact hshown
    · cases h
  | openAt p =>
    by_cases hqp : q = p
    · right
      rw [hqp]
    · left
      simp only [Game.step] at h
      split at h
      · injection h with h2
        subst h2
        rw [← openCell_shown_of_mined hm hqp]
        exact hshown
      · cases h

theorem run_mined_shown_no_plant : ∀ (ops : List Op) (g g' : Game),
    (∀ op ∈ ops, op.isPlant = false) → g.run ops = some g' →
    ∀ q, (g'.cells q).is_mined = true → (g'.cells q).shown = true →
      (g.cells q).shown = true ∨ Op.openAt q ∈ ops := by
  intro ops
  induction ops with
  | nil =>
    intro g g' _ h q _ hs
    injection h with h2
    subst h2
    exact Or.inl hs
  | cons op rest ih =>
    intro g g' hops h q hm hs
    obtain ⟨g1, hstep, hrest⟩ := run_cons_eq_some h
    have hops_rest : ∀ o ∈ rest, o.isPlant = false :=
      fun o ho => hops o (List.mem_cons_of_mem _ ho)
    have hnp : op.isPlant = false := hops op (List.mem_cons_self _ _)
    have hm1 : (g1.cells q).is_mined = true := by
      have hmc := hm
      rw [Cell.is_mined_of_value_eq (run_value_no_plant rest g1 g' hops_rest hrest q)] at hmc
      exact hmc
    rcases ih g1 g' hops_rest hrest q hm hs with hshown1 | hmem
    · have hmg : (g.cells q).is_mined = true := by
        rw [Cell.is_mined_of_value_eq (step_value_no_plant hstep hnp q)] at hm1
        exact hm1
      rcases step_mined_shown hstep hnp hmg hshown1 with h1 | h2
      · exact Or.inl h1
      · refine Or.inr ?_
        rw [← h2]
        exact List.mem_cons_self _ _
    · exact Or.inr (List.mem_cons_of_mem _ hmem)

theorem run_cons_none {g : Game} {op : Op} (hstep : g.step op = none) (rest : List Op) :
    g.run (op :: rest) = none := by
  show (match g.step op with | some h => h.run rest | none => none) = none
  rw [hstep]

theorem run_append : ∀ (l1 l2 : List Op) (g : Game),
    g.run (l1 ++ l2) = Option.bind (g.run l1) (fun h => h.run l2) := by
  intro l1
  induction l1 with
  | nil => intro l2 g; rfl
  | cons op rest ih =>
    intro l2 g
    cases hstep : g.step op with
    | none =>
      rw [show (op :: rest) ++ l2 = op :: (rest ++ l2) from rfl, run_cons_none hstep,
        run_cons_none hstep]
      rfl
    | some g1 =>
      rw [show (op :: rest) ++ l2 = op :: (rest ++ l2) from rfl, run_cons_some hstep,
        run_cons_some hstep, ih]

/-- Opening a hidden, unflagged, mined cell reveals exactly that cell: it is
exploded and shown, `has_lost` is set, and the flood fill stops immediately on
the now-shown starting cell. -/
theorem openCell_mined_trigger (g : Game) (p : Nat × Nat) (hin : g.inBounds p)
    (hr : g.rows ≤ 255) (hc : g.cols ≤ 255)
    (hs : (g.cells p).shown = false) (hf : (g.cells p).flagged = false)
    (hm : (g.cells p).is_mined = true) :
    (g.openCell p).2 =
      { g.update p (fun c => (c.explode).showCell) with has_lost := true } := by
  have hp1 : p.1 < g.rows := hin.1
  have hp2 : p.2 < g.cols := hin.2
  unfold Game.openCell
  rw [if_neg (by simp [hs, hf]), if_pos hm]
  show Game.sweep_mine { g.update p (fun c => (c.explode).showCell) with has_lost := true }
      (toI8 p.1, toI8 p.2) = _
  unfold Game.sweep_mine
  rw [sweepFuel]
  split
  · rfl
  · rename_i hb
    push_neg at hb
    obtain ⟨hx0, hy0, _, _⟩ := hb
    have hq1 : (toI8 (p.1 : Int)).toNat = p.1 := by
      unfold toI8 at hx0 ⊢
      omega
    have hq2 : (toI8 (p.2 : Int)).toNat = p.2 := by
      unfold toI8 at hy0 ⊢
      omega
    rw [if_pos]
    left
    have hidx : (((toI8 (p.1 : Int), toI8 (p.2 : Int)).1.toNat,
        (toI8 (p.1 : Int), toI8 (p.2 : Int)).2.toNat) : Nat × Nat) = p := by
      show ((toI8 (p.1 : Int)).toNat, (toI8 (p.2 : Int)).toNat) = p
      rw [hq1, hq2]
    rw [hidx]
    show ((g.update p (fun c => (c.explode).showCell)).cells p).shown = true
    rw [Game.cells_update_self]
    rfl

/-- Claim C3, counterexample trace: open `(1, 1)` on a fresh 3×3 board (the
flood fill shows every cell), then plant a mine at the already-shown `(0, 0)`.
The resulting reachable state has a mined, shown cell at `(0, 0)` although
`open` was never called at `(0, 0)`. -/
def c3CexOps : List Op := [Op.openAt (1, 1), Op.plantAt (0, 0)]

set_option maxRecDepth 8000 in
/-- Claim C3, counterexample: in the state reached by `c3CexOps` from
`new 3 3 1`, cell `(0, 0)` is mined and shown, yet no direct `open` at
`(0, 0)` occurs in the trace — so "a mined cell is shown only if open was
called directly on its position" fails for unrestricted reachable states. -/
theorem c3_counterexample :
    ((Game.new 3 3 1).run c3CexOps).isSome = true ∧
    ((((Game.new 3 3 1).run c3CexOps).getD (Game.new 3 3 1)).cells (0, 0)).is_mined = true ∧
    ((((Game.new 3 3 1).run c3CexOps).getD (Game.new 3 3 1)).cells (0, 0)).shown = true ∧
    Op.openAt (0, 0) ∉ c3CexOps := by
  decide

/-- Claim C3 as amended: (1) in every reachable board state no flagged cell is
shown; (2) the flood fill itself never touches a mined or flagged cell; (3) if
mines are planted before gameplay starts (`plant_bomb` after a cell is shown
is out of contract), a mined cell is shown only if `open` was called directly
on its position; and (4) `open` on a hidden, unflagged, mined cell reveals
only that cell. -/
theorem c3_reveal_safety :
    (∀ (r c b : Nat) (ops : List Op) (g' : Game), (Game.new r c b).run ops = some g' →
        ∀ q, (g'.cells q).flagged = true → (g'.cells q).shown = false) ∧
    (∀ (n : Nat) (g : Game) (xy : Int × Int) (q : Nat × Nat),
        (g.cells q).is_mined = true ∨ (g.cells q).flagged = true →
        (sweepFuel n g xy).cells q = g.cells q) ∧
    (∀ (r c b : Nat) (plants gameplay : List Op) (g' : Game),
        (∀ op ∈ plants, op.isPlant = true) → (∀ op ∈ gameplay, op.isPlant = false) →
        (Game.new r c b).run (plants ++ gameplay) = some g' →
        ∀ q, (g'.cells q).is_mined = true → (g'.cells q).shown = true →
          Op.openAt q ∈ gameplay) ∧
    (∀ (g : Game) (p : Nat × Nat), g.inBounds p → g.rows ≤ 255 → g.cols ≤ 255 →
        (g.cells p).shown = false → (g.cells p).flagged = false →
        (g.cells p).is_mined = true →
        (g.openCell p).2 =
          { g.update p (fun c => (c.explode).showCell) with has_lost := true }) := by
  refine ⟨?_, fun n g xy q h => sweepFuel_cells_of_mined_or_flagged h, ?_,
    openCell_mined_trigger⟩
  · intro r c b ops g' hrun
    refine run_flag_hidden ops _ g' hrun ?_
    intro q hq
    simp [Game.new, Cell.new] at hq
  · intro r c b plants gameplay g' hplants hgame hrun q hm hs
    rw [run_append] at hrun
    cases hmid : (Game.new r c b).run plants with
    | none => rw [hmid] at hrun; cases hrun
    | some gmid =>
      rw [hmid] at hrun
      have hrun2 : gmid.run gameplay = some g' := hrun
      rcases run_mined_shown_no_plant gameplay gmid g' hgame hrun2 q hm hs with hshown | hmem
      · exfalso
        rw [run_shown_plants plants _ gmid hplants hmid q] at hshown
        simp [Game.new, Cell.new] at hshown
      · exact hmem

/-! ### Win detection and flag arithmetic (claims C5 and C10) -/

theorem status_eq_won_iff {g : Game} (hnl : g.has_lost = false) :
    g.status = Status.won ↔ g.is_won = true := by
  unfold Game.status
  rw [if_neg (by simp [hnl])]
  split
  · rename_i h
    simp [h]
  · rename_i h
    simp [h]

/-- When the `u8` arithmetic cannot wrap (`rows * cols ≤ 255`), `is_won` is
exactly the mathematical condition `shownCount = rows * cols - bombs`. -/
theorem is_won_iff_exact {g : Game} (hb : g.bombs ≤ 255) (hrc : g.rows * g.cols ≤ 255) :
    (g.is_won = true ↔ (g.shownCount : Int) = (g.rows * g.cols : Int) - (g.bombs : Int)) := by
  have hsc : g.shownCount ≤ g.rows * g.cols := shownCount_le g
  unfold Game.is_won
  simp only [beq_iff_eq]
  omega

set_option maxRecDepth 8000 in
/-- Claim C5, counterexample: a fresh 16×16 board with 0 bombs and no shown
cell already has status `Won`, because `rows * cols` is computed in `u8` and
`16 * 16` wraps to `0` (debug builds would panic on the same multiplication).
The claim's exact condition `shownCount = rows*cols - bombs` (0 = 256) is
false there. -/
theorem c5_counterexample :
    (Game.new 16 16 0).has_lost = false ∧
    (Game.new 16 16 0).status = Status.won ∧
    ¬(((Game.new 16 16 0).shownCount : Int) =
      ((Game.new 16 16 0).rows * (Game.new 16 16 0).cols : Int) -
        ((Game.new 16 16 0).bombs : Int)) := by
  decide

/-- Claim C5 as amended: for every not-lost board state whose `u8` counting
arithmetic cannot wrap (`rows * cols ≤ 255`, `bombs ≤ 255`), `status()`
returns `Won` iff the number of shown cells equals `rows * cols - bombs`,
independently of which or how many cells are flagged (no flag state occurs in
the condition). -/
theorem c5_won_iff (g : Game) (hb : g.bombs ≤ 255) (hrc : g.rows * g.cols ≤ 255)
    (hnl : g.has_lost = false) :
    (g.status = Status.won ↔
      (g.shownCount : Int) = (g.rows * g.cols : Int) - (g.bombs : Int)) := by
  rw [status_eq_won_iff hnl, is_won_iff_exact hb hrc]

/-- Witness for `c5_won_iff` on a concrete small board. -/
theorem c5_won_iff_witness :
    (Game.new 2 2 1).status = Status.won ↔
      ((Game.new 2 2 1).shownCount : Int) =
        ((Game.new 2 2 1).rows * (Game.new 2 2 1).cols : Int) - ((Game.new 2 2 1).bombs : Int) :=
  c5_won_iff (Game.new 2 2 1) (by decide) (by decide) rfl

set_option maxRecDepth 8000 in
/-- Claim C10: the win check and `flags_left` are 8-bit machine arithmetic —
`is_won` computes `rows * cols` and the shown count in `u8` and `flags_left`
subtracts the flagged count from `bombs` in `i8` — so they are exact exactly
when the quantities fit (proved for `rows * cols ≤ 255` resp. counts
`≤ 127`), and wrap modulo `2^8` otherwise (witnessed by the 16×16 board that
counts as won while hiding 256 cells, and by `bombs = 200` reading as
`flags_left = -56`). -/
theorem c10_eight_bit_arithmetic :
    (∀ g : Game, g.bombs ≤ 255 → g.rows * g.cols ≤ 255 →
        (g.is_won = true ↔ (g.shownCount : Int) = (g.rows * g.cols : Int) - (g.bombs : Int))) ∧
    (∀ g : Game, g.bombs ≤ 127 → g.flaggedCount ≤ 127 →
        g.flags_left = (g.bombs : Int) - (g.flaggedCount : Int)) ∧
    ((Game.new 16 16 0).is_won = true ∧
      ¬(((Game.new 16 16 0).shownCount : Int) =
        ((Game.new 16 16 0).rows * (Game.new 16 16 0).cols : Int) -
          ((Game.new 16 16 0).bombs : Int))) ∧
    ((Game.new 1 1 200).flags_left = -56 ∧
      ¬((Game.new 1 1 200).flags_left =
        ((Game.new 1 1 200).bombs : Int) - ((Game.new 1 1 200).flaggedCount : Int))) := by
  refine ⟨fun g hb hrc => is_won_iff_exact hb hrc, fun g hb hf => ?_, by decide, by decide⟩
  unfold Game.flags_left
  rw [show toI8 (g.bombs : Int) = (g.bombs : Int) from toI8_eq_self (by omega) (by omega),
    show toI8 (g.flaggedCount : Int) = (g.flaggedCount : Int) from
      toI8_eq_self (by omega) (by omega)]
  exact toI8_eq_self (by omega) (by omega)

/-! ### Neighbourhood geometry (claim C7) -/

theorem length_filter_ne {α : Type} [DecidableEq α] (l : List α) (a : α) :
    l.Nodup → a ∈ l → (l.filter (fun x => x ≠ a)).length = l.length - 1 := by
  induction l with
  | nil =>
    intro _ ha
    cases ha
  | cons b l ih =>
    intro hnd ha
    rw [List.filter_cons]
    by_cases hb : b = a
    · subst hb
      rw [if_neg (by simp)]
      have hnl : b ∉ l := (List.nodup_cons.mp hnd).1
      rw [List.filter_eq_self.mpr (fun x hx => by
        simp only [ne_eq, decide_eq_true_eq]
        exact fun hxb => hnl (hxb ▸ hx))]
      simp
    · rw [if_pos (by simp [hb])]
      rcases List.mem_cons.mp ha with h1 | h1
      · exact absurd h1.symm hb
      · have hrec := ih (List.nodup_cons.mp hnd).2 h1
        have hpos : 1 ≤ l.length := List.length_pos_of_mem h1
        simp only [List.length_cons, hrec]
        omega

/-- The length of the clipped neighbour list: the product of the two clipped
range lengths, minus one for the excluded centre. -/
theorem iter_neighbors_length (g : Game) (p : Nat × Nat) (hin : g.inBounds p) :
    (g.iter_neighbors p).length =
      (min (p.1 + 1) (g.rows - 1) + 1 - (max p.1 1 - 1)) *
        (min (p.2 + 1) (g.cols - 1) + 1 - (max p.2 1 - 1)) - 1 := by
  obtain ⟨x, y⟩ := p
  obtain ⟨hx, hy⟩ := hin
  unfold Game.iter_neighbors
  rw [length_filter_ne _ _
    ((List.nodup_range' _ _).product (List.nodup_range' _ _))
    (List.mem_product.mpr
      ⟨List.mem_range'_1.mpr ⟨by omega, by omega⟩, List.mem_range'_1.mpr ⟨by omega, by omega⟩⟩),
    List.length_product, List.length_range', List.length_range']

/-- Claim C7, counterexample: on a 1×1 board the (in-bounds) position
`(0, 0)` is a corner — it lies on both extreme rows and both extreme
columns — yet its clipped candidate-neighbour list is empty, not of length
3. -/
theorem c7_counterexample :
    ((0 : Nat) = 0 ∨ (0 : Nat) = (Game.new 1 1 0).rows - 1) ∧
    ((0 : Nat) = 0 ∨ (0 : Nat) = (Game.new 1 1 0).cols - 1) ∧
    ((Game.new 1 1 0).iter_neighbors (0, 0)).length = 0 ∧
    ((Game.new 1 1 0).iter_neighbors (0, 0)).length ≠ 3 := by
  decide

/-- Claim C7 as amended: `plant_bomb` marks the target cell mined and
increments `bombs_around` of exactly the in-grid, not-currently-mined cells
of its clipped 8-neighbourhood (each by one, `u8`-wrapping only at 255),
leaving every other cell unchanged; the clipped candidate neighbourhood has 3
elements at a corner provided the grid is at least 2×2, 5 at a non-corner
edge cell provided the cross-edge dimension is at least 2, and 8 in the
interior — degenerate 1×n and n×1 grids clip further (see the
counterexample). -/
theorem c7_plant_neighborhood :
    (∀ (g : Game) (p : Nat × Nat), g.inBounds p → g.rows ≤ 255 → g.cols ≤ 255 →
      (((g.plant_bomb p).cells p).is_mined = true ∧
        (∀ q, q ≠ p → q ∈ g.iter_neighbors p → (g.cells q).is_mined = false →
          (g.plant_bomb p).cells q = Cell.inc_bombs_around (g.cells q)) ∧
        (∀ q, q ≠ p → q ∈ g.iter_neighbors p → (g.cells q).is_mined = true →
          (g.plant_bomb p).cells q = g.cells q) ∧
        (∀ q, q ≠ p → q ∉ g.iter_neighbors p → (g.plant_bomb p).cells q = g.cells q))) ∧
    (∀ c : Cell, c.bombs_around ≤ 254 →
        c.inc_bombs_around.bombs_around = c.bombs_around + 1) ∧
    (∀ (g : Game) (p : Nat × Nat), g.inBounds p → 2 ≤ g.rows → 2 ≤ g.cols →
        (p.1 = 0 ∨ p.1 = g.rows - 1) → (p.2 = 0 ∨ p.2 = g.cols - 1) →
        (g.iter_neighbors p).length = 3) ∧
    (∀ (g : Game) (p : Nat × Nat), g.inBounds p → 2 ≤ g.rows →
        (p.1 = 0 ∨ p.1 = g.rows - 1) → 0 < p.2 → p.2 < g.cols - 1 →
        (g.iter_neighbors p).length = 5) ∧
    (∀ (g : Game) (p : Nat × Nat), g.inBounds p → 2 ≤ g.cols →
        (p.2 = 0 ∨ p.2 = g.cols - 1) → 0 < p.1 → p.1 < g.rows - 1 →
        (g.iter_neighbors p).length = 5) ∧
    (∀ (g : Game) (p : Nat × Nat), g.inBounds p →
        0 < p.1 → p.1 < g.rows - 1 → 0 < p.2 → p.2 < g.cols - 1 →
        (g.iter_neighbors p).length = 8) := by
  refine ⟨?_, ?_, ?_, ?_, ?_, ?_⟩
  · intro g p _ _ _
    refine ⟨?_, ?_, ?_, ?_⟩
    · rw [plant_bomb_cells, if_pos rfl]
      rfl
    · intro q hq hmem hnm
      rw [plant_bomb_cells, if_neg hq, if_pos ⟨hmem, hnm⟩]
    · intro q hq hmem hm
      rw [plant_bomb_cells, if_neg hq, if_neg (fun hc => by rw [hm] at hc; cases hc.2)]
    · intro q hq hmem
      rw [plant_bomb_cells, if_neg hq, if_neg (fun hc => hmem hc.1)]
  · intro c hc
    show (c.bombs_around + 1) % 256 = c.bombs_around + 1
    omega
  · intro g p hin hr hc h1 h2
    rw [iter_neighbors_length g p hin]
    have e1 : min (p.1 + 1) (g.rows - 1) + 1 - (max p.1 1 - 1) = 2 := by omega
    have e2 : min (p.2 + 1) (g.cols - 1) + 1 - (max p.2 1 - 1) = 2 := by omega
    rw [e1, e2]
  · intro g p hin hr h1 h2 h3
    rw [iter_neighbors_length g p hin]
    have e1 : min (p.1 + 1) (g.rows - 1) + 1 - (max p.1 1 - 1) = 2 := by omega
    have e2 : min (p.2 + 1) (g.cols - 1) + 1 - (max p.2 1 - 1) = 3 := by omega
    rw [e1, e2]
  · intro g p hin hc h1 h2 h3
    rw [iter_neighbors_length g p hin]
    have e1 : min (p.1 + 1) (g.rows - 1) + 1 - (max p.1 1 - 1) = 3 := by omega
    have e2 : min (p.2 + 1) (g.cols - 1) + 1 - (max p.2 1 - 1) = 2 := by omega
    rw [e1, e2]
  · intro g p hin h1 h2 h3 h4
    rw [iter_neighbors_length g p hin]
    have e1 : min (p.1 + 1) (g.rows - 1) + 1 - (max p.1 1 - 1) = 3 := by omega
    have e2 : min (p.2 + 1) (g.cols - 1) + 1 - (max p.2 1 - 1) = 3 := by omega
    rw [e1, e2]

end Deminer
